import Mathlib

namespace SipProxy

/-!
# Verification of the sip-proxy media core

Shallow embedding of the repository's media bridge, AI session handler and
audio transcoder, with proofs of the specification's claims about them.

Bytes are modelled as `Nat` (only ever holding values below 256), buffers as
`List Nat`, and 16-bit PCM samples as `Int` in `[-32768, 32767]`.
-/

/-! ## AudioTranscoder: splitIntoChunks (rtp.go)

Go source:
```
bytesPerChunk := (sampleRate * 2 * chunkDurationMs) / 1000
var chunks [][]byte
for offset := 0; offset < len(audioData); offset += bytesPerChunk {
    end := offset + bytesPerChunk
    if end > len(audioData) { end = len(audioData) }
    chunk := make([]byte, end-offset)
    copy(chunk, audioData[offset:end])
    chunks = append(chunks, chunk)
}
```
The loop is embedded with explicit fuel because for `bytesPerChunk = 0` the
Go loop never advances `offset` and does not terminate; `none` models fuel
exhaustion, and termination of the Go loop is `∃ fuel, ... = some _`. -/

/-- One step of the Go loop appends `audioData[offset:min(offset+bpc,len)]`
(i.e. `take bpc` of the remaining buffer) and advances by `bpc` (i.e. `drop
bpc`); the loop ends when no data remains. -/
def splitLoop (bytesPerChunk : Nat) : Nat → List Nat → Option (List (List Nat))
  | 0, data => if data = [] then some [] else none
  | fuel + 1, data =>
    if data = [] then some []
    else
      match splitLoop bytesPerChunk fuel (data.drop bytesPerChunk) with
      | none => none
      | some rest => some (data.take bytesPerChunk :: rest)

/-- `splitIntoChunks` from rtp.go: chunk size is
`sampleRate * 2 * chunkDurationMs / 1000` (integer division); fuel
`audioData.length` is enough whenever the chunk size is positive. -/
def splitIntoChunks (audioData : List Nat) (sampleRate chunkDurationMs : Nat) :
    Option (List (List Nat)) :=
  let bytesPerChunk := sampleRate * 2 * chunkDurationMs / 1000
  splitLoop bytesPerChunk audioData.length audioData

/-- Total chunking function, defined for positive chunk size;
`splitLoop` agrees with it whenever it has enough fuel. -/
def chunksOf (s : Nat) (data : List Nat) : List (List Nat) :=
  if h : s = 0 ∨ data = [] then []
  else data.take s :: chunksOf s (data.drop s)
termination_by data.length
decreasing_by
  push_neg at h
  have h1 : data.length ≠ 0 := by
    simpa [List.length_eq_zero] using h.2
  simp only [List.length_drop]
  omega

/-! ## MediaBridge (bridge.go)

The bridge owns a participant registry (a Go map id → Participant; embedded
as a list of participants keyed by their `id`), a bounded chunk queue
(buffered channel of capacity 200) and a stop channel. A participant's
`Writer()` may be nil; a non-nil writer's response to a payload is modelled
as a function from the payload to the bridge's classification of the
`Write` error (`nil` / `io.ErrClosedPipe` / other). -/

/-- `MediaChunk` from bridge.go. -/
structure MediaChunk where
  data : List Nat
  senderID : String

/-- How the bridge classifies the result of an `io.Writer.Write` call
(bridge.go, `broadcastChunk`): success, the terminal `io.ErrClosedPipe`,
or any other error. -/
inductive WriteResult
  | ok
  | errClosedPipe
  | errOther
deriving DecidableEq

/-- A registered participant: its id (the registry key, `Participant.ID()`),
its writer (`none` models a nil `io.Writer`), and whether it implements the
optional `QueueFlusher` interface. -/
structure Participant where
  id : String
  writer : Option (List Nat → WriteResult)
  isQueueFlusher : Bool

/-- Capacity of the chunk channel (`make(chan *MediaChunk, 200)`). -/
def queueCapacity : Nat := 200

/-- State owned by `DefaultMediaBridge`: registry, queued chunks (in FIFO
order), and whether `stopChan` has been closed by `Stop()`. -/
structure BridgeState where
  participants : List Participant
  queue : List MediaChunk
  stopped : Bool

/-- Result of `Broadcast`: `nil` or `io.ErrClosedPipe`. -/
inductive BroadcastResult
  | ok
  | errClosedPipe
deriving DecidableEq

/-- `Broadcast` from bridge.go. The Go `select` has a send case (ready iff
the buffered channel has free capacity), a receive-from-`stopChan` case
(ready iff `stopChan` is closed, i.e. the bridge was stopped) and a
`default` branch. When both cases are ready Go picks one uniformly at
random; `pick` resolves that choice (`true` = the send case). The `default`
branch (queue full, not stopped) drops the incoming chunk and returns nil. -/
def broadcast (st : BridgeState) (chunk : MediaChunk) (pick : Bool) :
    BridgeState × BroadcastResult :=
  if st.queue.length < queueCapacity ∧ st.stopped = true then
    if pick = true then ({ st with queue := st.queue ++ [chunk] }, .ok)
    else (st, .errClosedPipe)
  else if st.stopped = true then (st, .errClosedPipe)
  else if st.queue.length < queueCapacity then ({ st with queue := st.queue ++ [chunk] }, .ok)
  else (st, .ok)

/-- The participant-map iteration inside `broadcastChunk`: skip the sender;
skip nil writers; attempt a write to everyone else, collecting the attempted
writes in order and marking participants whose write returned
`io.ErrClosedPipe` for later removal. -/
def broadcastChunkLoop (chunk : MediaChunk) : List Participant →
    List (String × List Nat) × List String
  | [] => ([], [])
  | p :: rest =>
    if p.id = chunk.senderID then broadcastChunkLoop chunk rest
    else
      match p.writer with
      | none => broadcastChunkLoop chunk rest
      | some w =>
        let tail := broadcastChunkLoop chunk rest
        match w chunk.data with
        | WriteResult.errClosedPipe => ((p.id, chunk.data) :: tail.1, p.id :: tail.2)
        | _ => ((p.id, chunk.data) :: tail.1, tail.2)

/-- `delete(m.participants, id)` on the registry. -/
def removeParticipant (reg : List Participant) (pid : String) : List Participant :=
  reg.filter fun p => p.id ≠ pid

/-- `broadcastChunk` from bridge.go: snapshot the registry, run the fan-out
loop over the snapshot, then remove all marked participants in one batch
after the iteration. Returns the attempted writes and the new registry. -/
def broadcastChunk (reg : List Participant) (chunk : MediaChunk) :
    List (String × List Nat) × List Participant :=
  let res := broadcastChunkLoop chunk reg
  (res.1, res.2.foldl removeParticipant reg)

/-- The fan-out worker spawned by `Start()`: dequeue chunks in FIFO order and
fan each one out, threading the registry through the auto-removals. Returns
the per-chunk write traces (in processing order) and the final registry. -/
def runWorker : List Participant → List MediaChunk →
    List (MediaChunk × List (String × List Nat)) × List Participant
  | reg, [] => ([], reg)
  | reg, c :: rest =>
    let r1 := broadcastChunk reg c
    let r2 := runWorker r1.2 rest
    ((c, r1.1) :: r2.1, r2.2)

/-- `FlushQueues` from bridge.go: snapshot the registry, invoke `FlushQueue`
on each participant implementing `QueueFlusher`; the error result is always
`nil` (`none`). Returns the ids flushed, in snapshot order. -/
def flushQueues (reg : List Participant) : List String × Option String :=
  ((reg.filter fun p => p.isQueueFlusher).map fun p => p.id, none)

/-- The participants `broadcastChunk` attempts to write to: every snapshot
entry that is not the sender and has a non-nil writer. -/
def eligible (snapshot : List Participant) (chunk : MediaChunk) : List Participant :=
  snapshot.filter fun p => p.id ≠ chunk.senderID ∧ p.writer.isSome

/-- The outcome of writing `data` to `p`, if `p` has a writer. -/
def writeOutcome (p : Participant) (data : List Nat) : Option WriteResult :=
  p.writer.map fun w => w data

/-! ## GeminiAudioWriter.Write (gemini.go lines 47–162)

The handler state read/written by the writer: whether the backend session
handle is present (`g.session != nil`), the monotonic closed flag, and the
"first audio sent" flag. External calls are oracles: `helloOk` is the
outcome of `SendClientContent` for the synthetic Hello turn (it is only
logged), `resampleResult` is `some` resampled bytes or `none` when any of
the three resampling steps fails, `sendOk` is the outcome of
`SendRealtimeInput`. -/

structure GWState where
  sessionPresent : Bool
  sessionClosed : Bool
  firstDataReceived : Bool

/-- What the writer sends to the backend. -/
inductive GWEvent
  | helloTurn (succeeded : Bool)
  | realtimeAudio (data : List Nat)
deriving DecidableEq

/-- The `(n, err)` result of `Write`: success returning `len(pcmData)`, the
terminal `io.ErrClosedPipe`, a resampling error, or a send error. -/
inductive GWResult
  | ok (n : Nat)
  | errClosedPipe
  | errResample
  | errSend
deriving DecidableEq

/-- `GeminiAudioWriter.Write`. Returns the new handler state, the result,
and the events sent to the backend in order. -/
def geminiWrite (st : GWState) (pcmData : List Nat) (helloOk : Bool)
    (resampleResult : Option (List Nat)) (sendOk : Bool) :
    GWState × GWResult × List GWEvent :=
  if st.sessionPresent = false ∨ st.sessionClosed = true then
    (st, GWResult.errClosedPipe, [])
  else if pcmData = [] then (st, GWResult.ok 0, [])
  else
    let st' := { st with firstDataReceived := true }
    let helloEvents :=
      if st.firstDataReceived = false then [GWEvent.helloTurn helloOk] else []
    match resampleResult with
    | none => (st', GWResult.errResample, helloEvents)
    | some resampled =>
      if sendOk = true then
        (st', GWResult.ok pcmData.length, helloEvents ++ [GWEvent.realtimeAudio resampled])
      else (st', GWResult.errSend, helloEvents)

/-- A sequence of `Write` calls (input bytes with the three oracles each),
threaded through the handler state; returns the final state, the results in
order, and the concatenated event trace. -/
def geminiWriteRun (st : GWState) :
    List (List Nat × Bool × Option (List Nat) × Bool) →
      GWState × List GWResult × List GWEvent
  | [] => (st, [], [])
  | c :: rest =>
    let r1 := geminiWrite st c.1 c.2.1 c.2.2.1 c.2.2.2
    let r2 := geminiWriteRun r1.1 rest
    (r2.1, r1.2.1 :: r2.2.1, r1.2.2 ++ r2.2.2)

def isHelloEvent : GWEvent → Bool
  | GWEvent.helloTurn _ => true
  | GWEvent.realtimeAudio _ => false

/-! ## GeminiHandler.Close (gemini.go lines 525–590)

State: the monotonic closed flag, whether `stopChan` has been closed,
whether the backend session handle is still held, whether the context has
been cancelled, and whether the handler's participant is still in the
bridge registry. `Close` is embedded as a pure step emitting its actions in
program order; closing an already-closed Go channel would panic, which the
embedding surfaces as `Except.error` from `goCloseChan` — the select/default
guard in `Close` is what keeps it unreachable. The constructor always
supplies a non-nil bridge and cancel function, so those nil checks are
elided. -/

structure GHState where
  sessionClosed : Bool
  stopChanClosed : Bool
  sessionPresent : Bool
  ctxCancelled : Bool
  inBridge : Bool
deriving DecidableEq

inductive CloseEvent
  | setClosedFlag
  | signalStop
  | waitLoopDone
  | waitLoopTimeout
  | closeSession (errLogged : Bool)
  | cancelContext
  | removeCalled
  | removedFromBridge
deriving DecidableEq

/-- `close(ch)` on a Go channel: panics (error) if the channel is already
closed. -/
def goCloseChan (alreadyClosed : Bool) : Except String Unit :=
  if alreadyClosed = true then Except.error "close of closed channel"
  else Except.ok ()

/-- `GeminiHandler.Close`: (1) set the closed flag, (2) close `stopChan`
unless already closed (select/default guard), (3) wait for the receive loop
with a 5s timeout — expiry only logged, (4) swap out and close the session
handle if present — errors only logged, (5) cancel the context, (6) call
`RemoveParticipant`; the registry deletes the entry only if present. -/
def geminiClose (st : GHState) (waitTimesOut : Bool) (sessionCloseErr : Bool) :
    Except String (GHState × List CloseEvent) :=
  let st1 : GHState := { st with sessionClosed := true }
  let step2 : Except String (GHState × List CloseEvent) :=
    if st1.stopChanClosed = true then Except.ok (st1, [])
    else (goCloseChan st1.stopChanClosed).map fun _ =>
      ({ st1 with stopChanClosed := true }, [CloseEvent.signalStop])
  match step2 with
  | Except.error e => Except.error e
  | Except.ok (st2, evs2) =>
    let evs3 := if waitTimesOut = true then [CloseEvent.waitLoopTimeout]
      else [CloseEvent.waitLoopDone]
    let r4 := if st2.sessionPresent = true
      then ({ st2 with sessionPresent := false },
        [CloseEvent.closeSession sessionCloseErr])
      else (st2, [])
    let st5 : GHState := { r4.1 with ctxCancelled := true }
    let r6 := if st5.inBridge = true
      then ({ st5 with inBridge := false },
        [CloseEvent.removeCalled, CloseEvent.removedFromBridge])
      else (st5, [CloseEvent.removeCalled])
    Except.ok (r6.1,
      CloseEvent.setClosedFlag :: evs2 ++ evs3 ++ r4.2
        ++ CloseEvent.cancelContext :: r6.2)

/-! ## GeminiHandler.receiveResponses — one received message
(gemini.go lines 364–481)

Only the effectful parts are modelled: per inline-data part, a resampling
pass (failure skips the part with `continue`) followed by a Broadcast of the
result; and, when the `Interrupted` flag is set and the bridge reference is
non-nil, a single call to `FlushQueues`. Transcriptions and turn-complete
flags are observability-only (log statements) with no control-flow effect. -/

structure ServerContent where
  modelTurnParts : Option (List (Option (List Nat)))
  inputTranscription : Option String
  outputTranscription : Option String
  turnComplete : Bool
  interrupted : Bool

structure LiveServerMessage where
  serverContent : Option ServerContent

inductive HandlerEffect
  | broadcastAudio (data : List Nat)
  | flushCall
deriving DecidableEq

/-- The effect trace of processing one successfully received message in
`receiveResponses`. `resampleOut audio = none` models a failed 24k→8k
resampling pass for that part (skipped with `continue`). -/
def processMessage (resampleOut : List Nat → Option (List Nat)) (bridgePresent : Bool)
    (msg : LiveServerMessage) : List HandlerEffect :=
  match msg.serverContent with
  | none => []
  | some sc =>
    let audio := match sc.modelTurnParts with
      | none => []
      | some parts => parts.filterMap fun part =>
          match part with
          | none => none
          | some audioData => (resampleOut audioData).map HandlerEffect.broadcastAudio
    let flush := if sc.interrupted = true ∧ bridgePresent = true
      then [HandlerEffect.flushCall] else []
    audio ++ flush

/-! ## AudioTranscoder: G.711 codecs and frame extraction (rtp.go)

`decodeG711`/`encodeG711` (rtp.go) dispatch on the codec string and call the
external `github.com/zaf/g711` library for the actual companding; the
unsupported-codec branches return an empty slice. The sample codecs below
are /Modelled from the spec/: the spec describes them only as "G.711
(PCMU/PCMA): companding telephony codecs converting between 16-bit linear
PCM and 8-bit compressed samples", so they follow the standard ITU-T G.711
reference algorithms (μ-law: bias 132, clip 32635, 8 logarithmic segments,
4-bit mantissa, complemented output byte; A-law: 13-bit magnitude, mask
0x55/0xD5). 16-bit samples are packed into bytes little-endian. -/

def ulawBias : Nat := 132

def ulawClip : Nat := 32635

/-- Quantization segment (0–7) of a biased μ-law magnitude. -/
def ulawSegment (m : Nat) : Nat :=
  if m ≤ 0xFF then 0
  else if m ≤ 0x1FF then 1
  else if m ≤ 0x3FF then 2
  else if m ≤ 0x7FF then 3
  else if m ≤ 0xFFF then 4
  else if m ≤ 0x1FFF then 5
  else if m ≤ 0x3FFF then 6
  else 7

/-- μ-law compression of a magnitude: clip, bias, then pack segment and
4-bit mantissa into 7 bits. -/
def ulawEncodeMag (mag : Nat) : Nat :=
  let m := min mag ulawClip + ulawBias
  let seg := ulawSegment m
  16 * seg + m / 2 ^ (seg + 3) % 16

/-- μ-law expansion of the 7 packed bits back to a magnitude. -/
def ulawDecodeMag (v : Nat) : Nat :=
  (8 * (v % 16) + ulawBias) * 2 ^ (v / 16) - ulawBias

/-- Modelled from the spec: `g711.EncodeUlawFrame` (external zaf/g711).
Standard μ-law: sign bit, companded magnitude, complemented byte. -/
def encodeUlawSample (x : Int) : Nat :=
  if x < 0 then 255 - (128 + ulawEncodeMag (-x).toNat)
  else 255 - ulawEncodeMag x.toNat

/-- Modelled from the spec: `g711.DecodeUlawFrame` (external zaf/g711). -/
def decodeUlawSample (b : Nat) : Int :=
  let u := 255 - b % 256
  if 128 ≤ u then -(ulawDecodeMag (u - 128) : Int)
  else (ulawDecodeMag u : Int)

/-- Quantization segment (0–7) of a 12-bit A-law magnitude. -/
def alawSegment (m : Nat) : Nat :=
  if m ≤ 0x1F then 0
  else if m ≤ 0x3F then 1
  else if m ≤ 0x7F then 2
  else if m ≤ 0xFF then 3
  else if m ≤ 0x1FF then 4
  else if m ≤ 0x3FF then 5
  else if m ≤ 0x7FF then 6
  else 7

/-- Modelled from the spec: `g711.EncodeAlawFrame` (external zaf/g711).
Standard A-law on the 13-bit magnitude with alternate-bit mask. -/
def encodeAlawSample (x : Int) : Nat :=
  let mask := if 0 ≤ x then 0xD5 else 0x55
  let v := (if 0 ≤ x then x else -x - 1).toNat / 8
  let m := min v 4095
  let seg := alawSegment m
  let man := if seg = 0 then m / 2 % 16 else m / 2 ^ seg % 16
  Nat.xor (16 * seg + man) mask

/-- Modelled from the spec: `g711.DecodeAlawFrame` (external zaf/g711). -/
def decodeAlawSample (b : Nat) : Int :=
  let a := Nat.xor (b % 256) 0x55
  let seg := a / 16 % 8
  let man := a % 16
  let t := if seg = 0 then 16 * man + 8 else (16 * man + 264) * 2 ^ (seg - 1)
  if 128 ≤ a % 256 then (t : Int) else -(t : Int)

/-- Little-endian 16-bit samples from a byte buffer; a trailing odd byte is
dropped (the library iterates over complete frames only). -/
def bytesToSamples : List Nat → List Int
  | b0 :: b1 :: rest =>
    (let u := b0 % 256 + 256 * (b1 % 256)
     if u < 32768 then (u : Int) else (u : Int) - 65536) :: bytesToSamples rest
  | _ => []

/-- Little-endian byte buffer of a 16-bit sample list (two's complement). -/
def samplesToBytes : List Int → List Nat
  | [] => []
  | x :: rest => (x % 65536).toNat % 256 :: (x % 65536).toNat / 256 :: samplesToBytes rest

/-- `decodeG711` from rtp.go: G.711 payload bytes to 16-bit LPCM bytes;
an unknown codec yields the empty buffer. -/
def decodeG711 (rtpPayload : List Nat) (codec : String) : List Nat :=
  if codec = "PCMU" then samplesToBytes (rtpPayload.map decodeUlawSample)
  else if codec = "PCMA" then samplesToBytes (rtpPayload.map decodeAlawSample)
  else []

/-- `encodeG711` from rtp.go: 16-bit LPCM bytes to G.711 bytes;
an unknown codec yields the empty buffer. -/
def encodeG711 (pcmData : List Nat) (codec : String) : List Nat :=
  if codec = "PCMU" then (bytesToSamples pcmData).map encodeUlawSample
  else if codec = "PCMA" then (bytesToSamples pcmData).map encodeAlawSample
  else []

/-- Maximum round-trip error of the modelled μ-law codec: half the top
segment step (512) plus the clipping loss (up to 132 beyond the clip). -/
def ulawQuantBound : Nat := 644

/-- Header fields and payload of a framed media packet. -/
structure RTPFrame where
  payloadType : Nat
  sequenceNumber : Nat
  timestamp : Nat
  payload : List Nat
deriving DecidableEq

/-- Modelled from the spec: `extractRTPPayload` (rtp.go) parses via the
external pion/rtp library. Per the spec's interface section, a framed media
packet is a payload-type byte, a 16-bit sequence number and a 32-bit
timestamp (network byte order), followed by a variable-length payload;
anything too short to carry the header is a hard parse error. -/
def extractRTPPayload (rtpPacket : List Nat) : Except String RTPFrame :=
  if rtpPacket.length < 7 then
    Except.error "failed to unmarshal RTP packet"
  else
    Except.ok
      { payloadType := rtpPacket.getD 0 0
        sequenceNumber := rtpPacket.getD 1 0 * 256 + rtpPacket.getD 2 0
        timestamp := ((rtpPacket.getD 3 0 * 256 + rtpPacket.getD 4 0) * 256
            + rtpPacket.getD 5 0) * 256 + rtpPacket.getD 6 0
        payload := rtpPacket.drop 7 }

/-! ## Theorems -/

theorem chunksOf_nil (s : Nat) : chunksOf s [] = [] := by
  rw [chunksOf]; simp

theorem chunksOf_pos {s : Nat} (hs : 0 < s) {data : List Nat} (hd : data ≠ []) :
    chunksOf s data = data.take s :: chunksOf s (data.drop s) := by
  rw [chunksOf]
  have : ¬ (s = 0 ∨ data = []) := by
    push_neg
    exact ⟨Nat.pos_iff_ne_zero.mp hs, hd⟩
  simp [this]

theorem chunksOf_join_aux {s : Nat} (hs : 0 < s) :
    ∀ n (data : List Nat), data.length ≤ n → (chunksOf s data).flatten = data := by
  intro n
  induction n with
  | zero =>
    intro data hlen
    have : data = [] := List.length_eq_zero.mp (Nat.le_zero.mp hlen)
    subst this
    simp [chunksOf_nil]
  | succ n ih =>
    intro data hlen
    by_cases hd : data = []
    · subst hd; simp [chunksOf_nil]
    · rw [chunksOf_pos hs hd]
      have hlen1 : 1 ≤ data.length := by
        have : data.length ≠ 0 := by simpa [List.length_eq_zero] using hd
        omega
      have hdrop : (data.drop s).length ≤ n := by
        simp only [List.length_drop]
        omega
      simp only [List.flatten_cons, ih _ hdrop]
      exact List.take_append_drop s data

theorem chunksOf_join {s : Nat} (hs : 0 < s) (data : List Nat) :
    (chunksOf s data).flatten = data :=
  chunksOf_join_aux hs data.length data (Nat.le_refl _)

theorem chunksOf_length_aux {s : Nat} (hs : 0 < s) :
    ∀ n (data : List Nat), data.length ≤ n →
      (chunksOf s data).length = (data.length + s - 1) / s := by
  intro n
  induction n with
  | zero =>
    intro data hlen
    have : data = [] := List.length_eq_zero.mp (Nat.le_zero.mp hlen)
    subst this
    simp [chunksOf_nil, Nat.div_eq_of_lt (by omega : s - 1 < s)]
  | succ n ih =>
    intro data hlen
    by_cases hd : data = []
    · subst hd; simp [chunksOf_nil, Nat.div_eq_of_lt (by omega : s - 1 < s)]
    · rw [chunksOf_pos hs hd]
      have hlen1 : 1 ≤ data.length := by
        have : data.length ≠ 0 := by simpa [List.length_eq_zero] using hd
        omega
      have hdrop : (data.drop s).length ≤ n := by
        simp only [List.length_drop]
        omega
      simp only [List.length_cons, ih _ hdrop, List.length_drop]
      rcases le_or_lt data.length s with hle | hlt
      · have h2 : (data.length - s + s - 1) / s = 0 :=
          Nat.div_eq_of_lt (by omega)
        have h3 : (data.length + s - 1) / s = 1 :=
          Nat.div_eq_of_lt_le (by omega) (by omega)
        rw [h2, h3]
      · have h4 : data.length - s + s - 1 = data.length - 1 := by omega
        have h5 : data.length + s - 1 = (data.length - 1) + s := by omega
        rw [h4, h5, Nat.add_div_right _ hs]

theorem chunksOf_length {s : Nat} (hs : 0 < s) (data : List Nat) :
    (chunksOf s data).length = (data.length + s - 1) / s :=
  chunksOf_length_aux hs data.length data (Nat.le_refl _)

theorem chunksOf_ne_nil {s : Nat} (hs : 0 < s) {data : List Nat} (hd : data ≠ []) :
    chunksOf s data ≠ [] := by
  rw [chunksOf_pos hs hd]
  simp

theorem chunksOf_init_length_aux {s : Nat} (hs : 0 < s) :
    ∀ n (data : List Nat), data.length ≤ n →
      ∀ i, i + 1 < (chunksOf s data).length → ((chunksOf s data).getD i []).length = s := by
  intro n
  induction n with
  | zero =>
    intro data hlen i hi
    have : data = [] := List.length_eq_zero.mp (Nat.le_zero.mp hlen)
    subst this
    simp [chunksOf_nil] at hi
  | succ n ih =>
    intro data hlen i hi
    by_cases hd : data = []
    · subst hd; simp [chunksOf_nil] at hi
    · rw [chunksOf_pos hs hd] at hi ⊢
      have hlen1 : 1 ≤ data.length := by
        have : data.length ≠ 0 := by simpa [List.length_eq_zero] using hd
        omega
      have hdrop : (data.drop s).length ≤ n := by
        simp only [List.length_drop]; omega
      match i with
      | 0 =>
        have hne : chunksOf s (data.drop s) ≠ [] := by
          intro hnil
          rw [hnil] at hi
          simp at hi
        have hdropne : data.drop s ≠ [] := by
          intro hnil
          rw [hnil] at hne
          exact hne (chunksOf_nil s)
        have hslt : s < data.length := by
          by_contra hle
          push_neg at hle
          exact hdropne (List.drop_eq_nil_of_le hle)
        simp [List.length_take]
        omega
      | Nat.succ j =>
        simp only [List.getD_cons_succ]
        simp only [List.length_cons] at hi
        exact ih _ hdrop j (by omega)

theorem chunksOf_last_length_aux {s : Nat} (hs : 0 < s) :
    ∀ n (data : List Nat), data.length ≤ n → data ≠ [] →
      ((chunksOf s data).getLast?).map List.length =
        some (if data.length % s = 0 then s else data.length % s) := by
  intro n
  induction n with
  | zero =>
    intro data hlen hd
    exact absurd (List.length_eq_zero.mp (Nat.le_zero.mp hlen)) hd
  | succ n ih =>
    intro data hlen hd
    have hlen1 : 1 ≤ data.length := by
      have : data.length ≠ 0 := by simpa [List.length_eq_zero] using hd
      omega
    rw [chunksOf_pos hs hd]
    by_cases hdrop : data.drop s = []
    · have hle : data.length ≤ s := by
        have := List.length_drop s data
        rw [hdrop] at this
        simp at this
        omega
      rw [hdrop, chunksOf_nil]
      have htake : (List.take s data).length = data.length := by
        simp only [List.length_take]
        omega
      simp only [List.getLast?_singleton]
      have hmap : Option.map List.length (some (List.take s data)) = some data.length := by
        simp [htake]
      rw [hmap]
      rcases eq_or_lt_of_le hle with heq | hlt
      · rw [heq]
        simp [Nat.mod_self]
      · have h0 : data.length % s = data.length := Nat.mod_eq_of_lt hlt
        rw [h0, if_neg (by omega)]
    · have hslt : s < data.length := by
        by_contra hle
        push_neg at hle
        exact hdrop (List.drop_eq_nil_of_le hle)
      have hdn : (data.drop s).length ≤ n := by
        simp only [List.length_drop]; omega
      rw [chunksOf_pos hs hdrop, List.getLast?_cons_cons, ← chunksOf_pos hs hdrop]
      have hmod : data.length % s = (data.length - s) % s :=
        Nat.mod_eq_sub_mod (by omega)
      have hih := ih _ hdn hdrop
      simp only [List.length_drop] at hih
      rw [hih, hmod]

theorem splitLoop_eq_chunksOf {s : Nat} (hs : 0 < s) :
    ∀ fuel (data : List Nat), data.length ≤ fuel →
      splitLoop s fuel data = some (chunksOf s data) := by
  intro fuel
  induction fuel with
  | zero =>
    intro data hlen
    have : data = [] := List.length_eq_zero.mp (Nat.le_zero.mp hlen)
    subst this
    simp [splitLoop, chunksOf_nil]
  | succ n ih =>
    intro data hlen
    by_cases hd : data = []
    · subst hd; simp [splitLoop, chunksOf_nil]
    · have hlen1 : 1 ≤ data.length := by
        have : data.length ≠ 0 := by simpa [List.length_eq_zero] using hd
        omega
      have hdn : (data.drop s).length ≤ n := by
        simp only [List.length_drop]; omega
      rw [chunksOf_pos hs hd]
      simp only [splitLoop, if_neg hd, ih _ hdn]

theorem splitLoop_zero_none {data : List Nat} (hd : data ≠ []) :
    ∀ fuel, splitLoop 0 fuel data = none := by
  intro fuel
  induction fuel with
  | zero => simp [splitLoop, hd]
  | succ n ih => simp [splitLoop, hd, ih]

/-- C6: for chunk size `S = sampleRate * 2 * durationMs / 1000 > 0`,
`splitIntoChunks` succeeds, its slices concatenate back to the input, the
slice count is `⌈L/S⌉`, every slice but the last has length `S`, the last
slice has length `L mod S` (or `S` when `S ∣ L`), and a non-empty input
yields at least one slice. -/
theorem splitIntoChunks_spec (audioData : List Nat) (sampleRate chunkDurationMs : Nat)
    (hs : 0 < sampleRate * 2 * chunkDurationMs / 1000) :
    ∃ cs, splitIntoChunks audioData sampleRate chunkDurationMs = some cs ∧
      cs.flatten = audioData ∧
      cs.length = (audioData.length + sampleRate * 2 * chunkDurationMs / 1000 - 1) /
        (sampleRate * 2 * chunkDurationMs / 1000) ∧
      (∀ i, i + 1 < cs.length →
        (cs.getD i []).length = sampleRate * 2 * chunkDurationMs / 1000) ∧
      (audioData ≠ [] → cs ≠ [] ∧
        (cs.getLast?).map List.length =
          some (if audioData.length % (sampleRate * 2 * chunkDurationMs / 1000) = 0
            then sampleRate * 2 * chunkDurationMs / 1000
            else audioData.length % (sampleRate * 2 * chunkDurationMs / 1000))) := by
  refine ⟨chunksOf (sampleRate * 2 * chunkDurationMs / 1000) audioData, ?_, ?_, ?_, ?_, ?_⟩
  · exact splitLoop_eq_chunksOf hs audioData.length audioData (Nat.le_refl _)
  · exact chunksOf_join hs audioData
  · exact chunksOf_length hs audioData
  · exact chunksOf_init_length_aux hs audioData.length audioData (Nat.le_refl _)
  · intro hd
    exact ⟨chunksOf_ne_nil hs hd,
      chunksOf_last_length_aux hs audioData.length audioData (Nat.le_refl _) hd⟩

/-- Witness for C6: buffer of 5 bytes, chunk size 2 (1000 Hz, 1 ms). -/
theorem splitIntoChunks_spec_witness :
    0 < 1000 * 2 * 1 / 1000 ∧
    (∃ cs, splitIntoChunks [10, 20, 30, 40, 50] 1000 1 = some cs ∧
      cs.flatten = [10, 20, 30, 40, 50] ∧
      cs.length = (([10, 20, 30, 40, 50] : List Nat).length + 1000 * 2 * 1 / 1000 - 1) /
        (1000 * 2 * 1 / 1000) ∧
      (∀ i, i + 1 < cs.length →
        (cs.getD i []).length = 1000 * 2 * 1 / 1000) ∧
      (([10, 20, 30, 40, 50] : List Nat) ≠ [] → cs ≠ [] ∧
        (cs.getLast?).map List.length =
          some (if ([10, 20, 30, 40, 50] : List Nat).length % (1000 * 2 * 1 / 1000) = 0
            then 1000 * 2 * 1 / 1000
            else ([10, 20, 30, 40, 50] : List Nat).length % (1000 * 2 * 1 / 1000)))) :=
  ⟨by decide, splitIntoChunks_spec [10, 20, 30, 40, 50] 1000 1 (by decide)⟩

/-- C10: the `splitIntoChunks` loop terminates iff the buffer is empty or the
computed chunk size `sampleRate * 2 * chunkDurationMs / 1000` is at least 1;
for a non-empty buffer with chunk size 0 the loop never advances its offset
and no amount of fuel makes it finish. -/
theorem splitIntoChunks_terminates_iff (audioData : List Nat)
    (sampleRate chunkDurationMs : Nat) :
    ((∃ fuel cs, splitLoop (sampleRate * 2 * chunkDurationMs / 1000) fuel audioData
        = some cs) ↔
      (audioData = [] ∨ 1 ≤ sampleRate * 2 * chunkDurationMs / 1000)) ∧
    (∀ fuel, audioData ≠ [] → sampleRate * 2 * chunkDurationMs / 1000 = 0 →
      splitLoop (sampleRate * 2 * chunkDurationMs / 1000) fuel audioData = none) := by
  constructor
  · constructor
    · rintro ⟨fuel, cs, hcs⟩
      by_cases hd : audioData = []
      · exact Or.inl hd
      · right
        by_contra hz
        push_neg at hz
        have hz0 : sampleRate * 2 * chunkDurationMs / 1000 = 0 := by omega
        rw [hz0] at hcs
        rw [splitLoop_zero_none hd fuel] at hcs
        exact Option.noConfusion hcs
    · rintro (hd | hpos)
      · subst hd
        exact ⟨0, [], by simp [splitLoop]⟩
      · exact ⟨audioData.length, _,
          splitLoop_eq_chunksOf hpos audioData.length audioData (Nat.le_refl _)⟩
  · intro fuel hd hz
    rw [hz]
    exact splitLoop_zero_none hd fuel

/-- Witness for C10: with a 1-byte buffer and chunk size 0 the loop is stuck;
with chunk size 2 it finishes. -/
theorem splitIntoChunks_terminates_iff_witness :
    ¬ (∃ fuel cs, splitLoop (0 * 2 * 1 / 1000) fuel [1] = some cs) ∧
    splitLoop (0 * 2 * 1 / 1000) 7 [1] = none ∧
    (∃ fuel cs, splitLoop (1000 * 2 * 1 / 1000) fuel [1] = some cs) := by
  refine ⟨?_, ?_, ?_⟩
  · intro h
    have := (splitIntoChunks_terminates_iff [1] 0 1).1.mp h
    simp at this
  · exact (splitIntoChunks_terminates_iff [1] 0 1).2 7 (by simp) (by decide)
  · exact (splitIntoChunks_terminates_iff [1] 1000 1).1.mpr (Or.inr (by decide))

theorem eligible_cons_skip (chunk : MediaChunk) (p : Participant) (rest : List Participant)
    (h : p.id = chunk.senderID ∨ p.writer = none) :
    eligible (p :: rest) chunk = eligible rest chunk := by
  unfold eligible
  rw [List.filter_cons_of_neg]
  rcases h with h | h <;> simp [h]

theorem eligible_cons_keep (chunk : MediaChunk) (p : Participant) (rest : List Participant)
    (h1 : p.id ≠ chunk.senderID) (h2 : p.writer.isSome = true) :
    eligible (p :: rest) chunk = p :: eligible rest chunk := by
  unfold eligible
  rw [List.filter_cons_of_pos]
  simp [h1, h2]

theorem broadcastChunkLoop_writes (chunk : MediaChunk) (snapshot : List Participant) :
    (broadcastChunkLoop chunk snapshot).1 =
      (eligible snapshot chunk).map fun p => (p.id, chunk.data) := by
  induction snapshot with
  | nil => simp [broadcastChunkLoop, eligible]
  | cons p rest ih =>
    by_cases hid : p.id = chunk.senderID
    · rw [eligible_cons_skip chunk p rest (Or.inl hid)]
      simp only [broadcastChunkLoop, if_pos hid]
      exact ih
    · match hw : p.writer with
      | none =>
        rw [eligible_cons_skip chunk p rest (Or.inr hw)]
        simp only [broadcastChunkLoop, if_neg hid, hw]
        exact ih
      | some w =>
        rw [eligible_cons_keep chunk p rest hid (by simp [hw]), List.map_cons]
        simp only [broadcastChunkLoop, if_neg hid, hw]
        match w chunk.data with
        | WriteResult.errClosedPipe => simp [ih]
        | WriteResult.ok => simp [ih]
        | WriteResult.errOther => simp [ih]

theorem broadcastChunkLoop_toRemove (chunk : MediaChunk) (snapshot : List Participant) :
    (broadcastChunkLoop chunk snapshot).2 =
      (snapshot.filter fun p =>
        p.id ≠ chunk.senderID ∧ writeOutcome p chunk.data = some WriteResult.errClosedPipe).map
        fun p => p.id := by
  induction snapshot with
  | nil => simp [broadcastChunkLoop]
  | cons p rest ih =>
    by_cases hid : p.id = chunk.senderID
    · rw [List.filter_cons_of_neg (by simp [hid])]
      simp only [broadcastChunkLoop, if_pos hid]
      exact ih
    · match hw : p.writer with
      | none =>
        rw [List.filter_cons_of_neg (by simp [writeOutcome, hw])]
        simp only [broadcastChunkLoop, if_neg hid, hw]
        exact ih
      | some w =>
        simp only [broadcastChunkLoop, if_neg hid, hw]
        match hres : w chunk.data with
        | WriteResult.errClosedPipe =>
          rw [List.filter_cons_of_pos (by simp [writeOutcome, hw, hres, hid])]
          simp [ih]
        | WriteResult.ok =>
          rw [List.filter_cons_of_neg (by simp [writeOutcome, hw, hres])]
          simp [ih]
        | WriteResult.errOther =>
          rw [List.filter_cons_of_neg (by simp [writeOutcome, hw, hres])]
          simp [ih]

theorem foldl_removeParticipant (ids : List String) :
    ∀ reg : List Participant,
      ids.foldl removeParticipant reg = reg.filter fun p => ¬ p.id ∈ ids := by
  induction ids with
  | nil => intro reg; simp
  | cons i ids ih =>
    intro reg
    rw [List.foldl_cons, ih (removeParticipant reg i)]
    unfold removeParticipant
    rw [List.filter_filter]
    apply List.filter_congr
    intro p _
    by_cases h1 : p.id = i <;> by_cases h2 : p.id ∈ ids <;>
      simp [h1, h2, List.mem_cons]

theorem runWorker_fifo :
    ∀ (q : List MediaChunk) (reg : List Participant),
      (runWorker reg q).1.map Prod.fst = q := by
  intro q
  induction q with
  | nil => intro reg; simp [runWorker]
  | cons c rest ih => intro reg; simp [runWorker, ih]

/-- C1 counterexample: on a stopped bridge whose queue has free capacity,
Go's `select` may take the ready send case — `Broadcast` then enqueues and
returns nil instead of the claimed unconditional closed error. -/
theorem broadcast_stopped_counterexample :
    ({ participants := [], queue := [], stopped := true } : BridgeState).stopped = true ∧
    (broadcast { participants := [], queue := [], stopped := true }
        { data := [1], senderID := "a" } true).2 = BroadcastResult.ok :=
  ⟨rfl, rfl⟩

/-- C1 (amended): `Broadcast` never blocks and obeys: stopped with a full
queue → closed error; running with capacity → enqueue and success; running
with a full queue → the incoming chunk is dropped (the queue, hence every
already-queued chunk, is untouched), the call returns success, and the
worker's delivery trace is exactly what it would have been without the call,
so the dropped chunk is never delivered; stopped with free capacity → the
select nondeterministically either enqueues returning success or returns the
closed error. -/
theorem broadcast_contract (st : BridgeState) (chunk : MediaChunk) (pick : Bool)
    (reg : List Participant) :
    (st.stopped = true → queueCapacity ≤ st.queue.length →
      broadcast st chunk pick = (st, BroadcastResult.errClosedPipe)) ∧
    (st.stopped = false → st.queue.length < queueCapacity →
      broadcast st chunk pick = ({ st with queue := st.queue ++ [chunk] }, BroadcastResult.ok)) ∧
    (st.stopped = false → queueCapacity ≤ st.queue.length →
      broadcast st chunk pick = (st, BroadcastResult.ok) ∧
      (runWorker reg (broadcast st chunk pick).1.queue).1 = (runWorker reg st.queue).1) ∧
    (st.stopped = true → st.queue.length < queueCapacity →
      broadcast st chunk true = ({ st with queue := st.queue ++ [chunk] }, BroadcastResult.ok) ∧
      broadcast st chunk false = (st, BroadcastResult.errClosedPipe)) := by
  refine ⟨?_, ?_, ?_, ?_⟩
  · intro hstop hfull
    simp [broadcast, hstop, not_lt.mpr hfull]
  · intro hstop hcap
    simp [broadcast, hstop, hcap]
  · intro hstop hfull
    refine ⟨?_, ?_⟩ <;>
      simp [broadcast, hstop, not_lt.mpr hfull]
  · intro hstop hcap
    exact ⟨by simp [broadcast, hstop, hcap], by simp [broadcast, hstop, hcap]⟩

/-- Witness for C1 (amended): a running bridge with an empty queue enqueues
the chunk and returns success. -/
theorem broadcast_contract_witness :
    broadcast { participants := [], queue := [], stopped := false }
        { data := [2], senderID := "s" } true =
      ({ participants := [], queue := [{ data := [2], senderID := "s" }], stopped := false },
        BroadcastResult.ok) :=
  (broadcast_contract { participants := [], queue := [], stopped := false }
    { data := [2], senderID := "s" } true []).2.1 rfl (by decide)

/-- C2 counterexample: a snapshot participant that is not the sender but has
a nil writer is skipped by the fan-out loop, so the chunk's bytes are never
written to it — refuting "every other participant in the snapshot is
written". -/
theorem broadcastChunk_nil_writer_counterexample :
    (broadcastChunk [{ id := "a", writer := none, isQueueFlusher := false }]
        { data := [1], senderID := "b" }).1 = [] ∧
    ("a" : String) ≠ "b" :=
  ⟨rfl, by decide⟩

/-- C2 (amended): during one chunk's fan-out the sender id is never written
to; every other snapshot participant **with a non-nil writer** is written
the chunk's bytes (in snapshot order); and the worker processes chunks in
FIFO order — the per-chunk processing trace lists the chunks exactly in
Broadcast-arrival order. -/
theorem broadcastChunk_fanout_fifo (reg : List Participant) (chunk : MediaChunk)
    (q : List MediaChunk) :
    ((broadcastChunk reg chunk).1 = (eligible reg chunk).map fun p => (p.id, chunk.data)) ∧
    (∀ e ∈ (broadcastChunk reg chunk).1, e.1 ≠ chunk.senderID) ∧
    ((runWorker reg q).1.map Prod.fst = q) := by
  refine ⟨broadcastChunkLoop_writes chunk reg, ?_, runWorker_fifo q reg⟩
  intro e he
  rw [show (broadcastChunk reg chunk).1 = (broadcastChunkLoop chunk reg).1 from rfl,
    broadcastChunkLoop_writes chunk reg] at he
  obtain ⟨p, hp, rfl⟩ := List.mem_map.mp he
  have := List.of_mem_filter hp
  simp only [decide_eq_true_eq] at this
  exact this.1

/-- C3: terminal (`io.ErrClosedPipe`) write failures, and only those, cause
removal, and the removal is one batched registry update after the whole
snapshot is iterated (the write trace covers every eligible participant
regardless of any participant's failure, so no failure blocks later writes
and no removal happens mid-iteration); participants whose write failed with
any other error — or who were skipped — remain registered. -/
theorem broadcastChunk_failure_policy (reg : List Participant) (chunk : MediaChunk)
    (hnodup : (reg.map Participant.id).Nodup) :
    ((broadcastChunk reg chunk).1 = (eligible reg chunk).map fun p => (p.id, chunk.data)) ∧
    (∀ p ∈ reg, (p ∈ (broadcastChunk reg chunk).2 ↔
      ¬(p.id ≠ chunk.senderID ∧
        writeOutcome p chunk.data = some WriteResult.errClosedPipe))) := by
  refine ⟨broadcastChunkLoop_writes chunk reg, ?_⟩
  intro p hp
  rw [show (broadcastChunk reg chunk).2
      = (broadcastChunkLoop chunk reg).2.foldl removeParticipant reg from rfl,
    broadcastChunkLoop_toRemove, foldl_removeParticipant]
  rw [List.mem_filter]
  simp only [decide_eq_true_eq]
  constructor
  · rintro ⟨-, hnotin⟩ hmarked
    apply hnotin
    apply List.mem_map.mpr
    refine ⟨p, ?_, rfl⟩
    rw [List.mem_filter]
    simp only [decide_eq_true_eq]
    exact ⟨hp, hmarked⟩
  · intro hnm
    refine ⟨hp, ?_⟩
    intro hin
    obtain ⟨q, hq, hqid⟩ := List.mem_map.mp hin
    have hqmem := List.mem_of_mem_filter hq
    have hqmark := List.of_mem_filter hq
    simp only [decide_eq_true_eq] at hqmark
    have : q = p := List.inj_on_of_nodup_map hnodup hqmem hp hqid
    subst this
    exact hnm hqmark

/-- Witness for C3: registry with a terminally failing participant "x", a
transiently failing participant "y" and the sender "z"; only "x" is removed. -/
theorem broadcastChunk_failure_policy_witness :
    ((broadcastChunk
        [{ id := "x", writer := some (fun _ => WriteResult.errClosedPipe), isQueueFlusher := false },
         { id := "y", writer := some (fun _ => WriteResult.errOther), isQueueFlusher := false }]
        { data := [7], senderID := "z" }).1 =
      (eligible
        [{ id := "x", writer := some (fun _ => WriteResult.errClosedPipe), isQueueFlusher := false },
         { id := "y", writer := some (fun _ => WriteResult.errOther), isQueueFlusher := false }]
        { data := [7], senderID := "z" }).map fun p => (p.id, ([7] : List Nat))) ∧
    (∀ p ∈ [({ id := "x", writer := some (fun _ => WriteResult.errClosedPipe), isQueueFlusher := false } : Participant),
         { id := "y", writer := some (fun _ => WriteResult.errOther), isQueueFlusher := false }],
      (p ∈ (broadcastChunk
        [{ id := "x", writer := some (fun _ => WriteResult.errClosedPipe), isQueueFlusher := false },
         { id := "y", writer := some (fun _ => WriteResult.errOther), isQueueFlusher := false }]
        { data := [7], senderID := "z" }).2 ↔
      ¬(p.id ≠ "z" ∧ writeOutcome p [7] = some WriteResult.errClosedPipe))) :=
  broadcastChunk_failure_policy _ _ (by simp)

theorem geminiWrite_state_cases (st : GWState) (pcmData : List Nat) (helloOk : Bool)
    (resampleResult : Option (List Nat)) (sendOk : Bool) :
    (geminiWrite st pcmData helloOk resampleResult sendOk).1.sessionPresent
        = st.sessionPresent ∧
    (geminiWrite st pcmData helloOk resampleResult sendOk).1.sessionClosed
        = st.sessionClosed ∧
    (((geminiWrite st pcmData helloOk resampleResult sendOk).2.2.countP isHelloEvent = 0 ∧
      (geminiWrite st pcmData helloOk resampleResult sendOk).1.firstDataReceived
        = st.firstDataReceived) ∨
     ((geminiWrite st pcmData helloOk resampleResult sendOk).2.2.countP isHelloEvent = 1 ∧
      (geminiWrite st pcmData helloOk resampleResult sendOk).1.firstDataReceived = true ∧
      st.firstDataReceived = false)) := by
  rcases resampleResult with _ | r <;>
    by_cases h1 : st.sessionPresent = false ∨ st.sessionClosed = true <;>
    by_cases h2 : pcmData = [] <;>
    by_cases hf : st.firstDataReceived = false <;>
    by_cases h3 : sendOk = true <;>
    simp [geminiWrite, h1, h2, hf, h3, isHelloEvent]

theorem geminiWriteRun_no_hello (calls : List (List Nat × Bool × Option (List Nat) × Bool)) :
    ∀ st : GWState, st.firstDataReceived = true →
      (geminiWriteRun st calls).2.2.countP isHelloEvent = 0 := by
  induction calls with
  | nil => intro st _; simp [geminiWriteRun]
  | cons c rest ih =>
    intro st hf
    simp only [geminiWriteRun, List.countP_append]
    obtain ⟨-, -, hcase⟩ := geminiWrite_state_cases st c.1 c.2.1 c.2.2.1 c.2.2.2
    rcases hcase with ⟨h0, hfeq⟩ | ⟨-, -, hcontra⟩
    · rw [h0, ih _ (by rw [hfeq]; exact hf)]
    · rw [hf] at hcontra
      exact absurd hcontra (by simp)

theorem geminiWriteRun_hello_le_one
    (calls : List (List Nat × Bool × Option (List Nat) × Bool)) :
    ∀ st : GWState, (geminiWriteRun st calls).2.2.countP isHelloEvent ≤ 1 := by
  induction calls with
  | nil => intro st; simp [geminiWriteRun]
  | cons c rest ih =>
    intro st
    simp only [geminiWriteRun, List.countP_append]
    obtain ⟨-, -, hcase⟩ := geminiWrite_state_cases st c.1 c.2.1 c.2.2.1 c.2.2.2
    rcases hcase with ⟨h0, -⟩ | ⟨h1, hft, -⟩
    · rw [h0]
      simpa using ih _
    · rw [h1, geminiWriteRun_no_hello rest _ hft]

theorem geminiWriteRun_all_empty
    (calls : List (List Nat × Bool × Option (List Nat) × Bool)) :
    ∀ st : GWState, st.sessionPresent = true → st.sessionClosed = false →
      (∀ c ∈ calls, c.1 = ([] : List Nat)) →
      (geminiWriteRun st calls).2.2 = [] ∧ (geminiWriteRun st calls).1 = st := by
  induction calls with
  | nil => intro st _ _ _; exact ⟨rfl, rfl⟩
  | cons c rest ih =>
    intro st hp hc hall
    have hc1 : c.1 = ([] : List Nat) := hall c (List.mem_cons_self c rest)
    have hw : geminiWrite st c.1 c.2.1 c.2.2.1 c.2.2.2 = (st, GWResult.ok 0, []) := by
      simp [geminiWrite, hp, hc, hc1]
    simp only [geminiWriteRun, hw]
    have := ih st hp hc (fun d hd => hall d (List.mem_cons_of_mem c hd))
    simp [this.1, this.2]

theorem geminiWriteRun_hello_first
    (calls : List (List Nat × Bool × Option (List Nat) × Bool)) :
    ∀ st : GWState, st.sessionPresent = true → st.sessionClosed = false →
      st.firstDataReceived = false →
      (∃ c ∈ calls, c.1 ≠ ([] : List Nat)) →
      ∃ b rest, (geminiWriteRun st calls).2.2 = GWEvent.helloTurn b :: rest ∧
        rest.countP isHelloEvent = 0 := by
  induction calls with
  | nil =>
    intro st _ _ _ hex
    simp at hex
  | cons c rest ih =>
    intro st hp hc hf hex
    by_cases hc1 : c.1 = ([] : List Nat)
    · have hw : geminiWrite st c.1 c.2.1 c.2.2.1 c.2.2.2 = (st, GWResult.ok 0, []) := by
        simp [geminiWrite, hp, hc, hc1]
      simp only [geminiWriteRun, hw, List.nil_append]
      apply ih st hp hc hf
      rcases hex with ⟨d, hd, hdne⟩
      rcases List.mem_cons.mp hd with rfl | hd'
      · exact absurd hc1 hdne
      · exact ⟨d, hd', hdne⟩
    · have hcond : ¬ (st.sessionPresent = false ∨ st.sessionClosed = true) := by
        simp [hp, hc]
      have hw1 : (geminiWrite st c.1 c.2.1 c.2.2.1 c.2.2.2).1
          = { st with firstDataReceived := true } := by
        rcases hr : c.2.2.1 with _ | r <;>
          by_cases hsnd : c.2.2.2 = true <;>
          simp [geminiWrite, hcond, hc1, hr, hsnd]
      have hw2 : ∃ tl, (geminiWrite st c.1 c.2.1 c.2.2.1 c.2.2.2).2.2
          = GWEvent.helloTurn c.2.1 :: tl ∧ tl.countP isHelloEvent = 0 := by
        rcases hr : c.2.2.1 with _ | r <;>
          by_cases hsnd : c.2.2.2 = true <;>
          simp [geminiWrite, hcond, hc1, hr, hsnd, hf, isHelloEvent]
      rcases hw2 with ⟨tl, htl, htl0⟩
      refine ⟨c.2.1, tl ++ (geminiWriteRun
        (geminiWrite st c.1 c.2.1 c.2.2.1 c.2.2.2).1 rest).2.2, ?_, ?_⟩
      · simp only [geminiWriteRun, htl, List.cons_append]
      · rw [List.countP_append, htl0,
          geminiWriteRun_no_hello rest _ (by rw [hw1])]

/-- C4: the writer returns the terminal `io.ErrClosedPipe` whenever the
connection handle is nil or the closed flag is set; an empty input while
open returns success (length 0) sending nothing; the result and state of a
write do not depend on the outcome of the Hello send; across every sequence
of writer calls the synthetic Hello turn is sent at most once, and from an
open state with the first-data flag clear it is sent exactly on the first
non-empty write (it leads the event trace, and no later Hello occurs). -/
theorem geminiWrite_contract (st : GWState) (pcm : List Nat) (hOk : Bool)
    (rr : Option (List Nat)) (sOk : Bool)
    (calls : List (List Nat × Bool × Option (List Nat) × Bool)) :
    ((st.sessionPresent = false ∨ st.sessionClosed = true) →
      geminiWrite st pcm hOk rr sOk = (st, GWResult.errClosedPipe, [])) ∧
    (st.sessionPresent = true → st.sessionClosed = false → pcm = [] →
      geminiWrite st pcm hOk rr sOk = (st, GWResult.ok 0, [])) ∧
    ((geminiWrite st pcm hOk rr sOk).1 = (geminiWrite st pcm true rr sOk).1 ∧
      (geminiWrite st pcm hOk rr sOk).2.1 = (geminiWrite st pcm true rr sOk).2.1) ∧
    ((geminiWriteRun st calls).2.2.countP isHelloEvent ≤ 1) ∧
    (st.sessionPresent = true → st.sessionClosed = false →
      st.firstDataReceived = false →
      ((∀ c ∈ calls, c.1 = ([] : List Nat)) →
        (geminiWriteRun st calls).2.2 = []) ∧
      ((∃ c ∈ calls, c.1 ≠ ([] : List Nat)) →
        ∃ b rest, (geminiWriteRun st calls).2.2 = GWEvent.helloTurn b :: rest ∧
          rest.countP isHelloEvent = 0)) := by
  refine ⟨?_, ?_, ?_, geminiWriteRun_hello_le_one calls st, ?_⟩
  · intro h
    simp [geminiWrite, h]
  · intro hp hc hpcm
    simp [geminiWrite, hp, hc, hpcm]
  · rcases rr with _ | r <;>
      by_cases h1 : st.sessionPresent = false ∨ st.sessionClosed = true <;>
      by_cases h2 : pcm = [] <;>
      by_cases h3 : sOk = true <;>
      simp [geminiWrite, h1, h2, h3]
  · intro hp hc hf
    exact ⟨fun hall => (geminiWriteRun_all_empty calls st hp hc hall).1,
      geminiWriteRun_hello_first calls st hp hc hf⟩

/-- Witness for C4: an open handler with the first-data flag clear; one
empty write then one non-empty write with all backend calls succeeding. -/
theorem geminiWrite_contract_witness :
    geminiWrite { sessionPresent := true, sessionClosed := false, firstDataReceived := false } [] true (some []) true = ({ sessionPresent := true, sessionClosed := false, firstDataReceived := false }, GWResult.ok 0, []) ∧
    (∃ b rest,
      (geminiWriteRun { sessionPresent := true, sessionClosed := false, firstDataReceived := false } [([], true, some [], true), ([5, 6], true, some [7, 8], true)]).2.2 = GWEvent.helloTurn b :: rest ∧
      rest.countP isHelloEvent = 0) := by
  refine ⟨?_, ?_⟩
  · exact (geminiWrite_contract { sessionPresent := true, sessionClosed := false, firstDataReceived := false } [] true (some []) true []).2.1 rfl rfl rfl
  · exact ((geminiWrite_contract { sessionPresent := true, sessionClosed := false, firstDataReceived := false } [] true (some []) true [([], true, some [], true), ([5, 6], true, some [7, 8], true)]).2.2.2.2 rfl rfl rfl).2 ⟨([5, 6], true, some [7, 8], true), by simp, by simp⟩

/-- C5: `Close()` from an active handler performs its steps in the specified
order (closed flag first, then the stop signal, the bounded wait whose
expiry is non-fatal, the session close, the context cancel, the bridge
removal); it never panics from any state; and a second `Close()` leaves the
state unchanged, closes no channel or session a second time, and does not
remove the participant from the bridge again. -/
theorem geminiClose_idempotent_ordered (st : GHState) (w1 e1 w2 e2 : Bool)
    (hstop : st.stopChanClosed = false) (hsess : st.sessionPresent = true)
    (hbr : st.inBridge = true) :
    (∀ (st' : GHState) (w e : Bool), (geminiClose st' w e).isOk = true) ∧
    geminiClose st w1 e1 = Except.ok
      (⟨true, true, false, true, false⟩,
       [CloseEvent.setClosedFlag, CloseEvent.signalStop,
        (if w1 = true then CloseEvent.waitLoopTimeout else CloseEvent.waitLoopDone),
        CloseEvent.closeSession e1, CloseEvent.cancelContext,
        CloseEvent.removeCalled, CloseEvent.removedFromBridge]) ∧
    geminiClose ⟨true, true, false, true, false⟩ w2 e2 = Except.ok
      (⟨true, true, false, true, false⟩,
       [CloseEvent.setClosedFlag,
        (if w2 = true then CloseEvent.waitLoopTimeout else CloseEvent.waitLoopDone),
        CloseEvent.cancelContext, CloseEvent.removeCalled]) := by
  refine ⟨?_, ?_, ?_⟩
  · intro st' w e
    by_cases h2 : st'.stopChanClosed = true <;>
      by_cases h4 : st'.sessionPresent = true <;>
      by_cases h6 : st'.inBridge = true <;>
      cases w <;>
      simp [geminiClose, goCloseChan, h2, h4, h6, Except.isOk, Except.toBool, Except.map]
  · cases w1 <;> simp [geminiClose, goCloseChan, hstop, hsess, hbr, Except.map]
  · cases w2 <;> simp [geminiClose, goCloseChan, Except.map]

/-- Witness for C5: a concrete active handler closed twice. -/
theorem geminiClose_idempotent_ordered_witness :
    (∀ (st' : GHState) (w e : Bool), (geminiClose st' w e).isOk = true) ∧
    geminiClose ⟨false, false, true, false, true⟩ false true = Except.ok
      (⟨true, true, false, true, false⟩,
       [CloseEvent.setClosedFlag, CloseEvent.signalStop,
        (if (false : Bool) = true then CloseEvent.waitLoopTimeout else CloseEvent.waitLoopDone),
        CloseEvent.closeSession true, CloseEvent.cancelContext,
        CloseEvent.removeCalled, CloseEvent.removedFromBridge]) ∧
    geminiClose ⟨true, true, false, true, false⟩ true false = Except.ok
      (⟨true, true, false, true, false⟩,
       [CloseEvent.setClosedFlag,
        (if (true : Bool) = true then CloseEvent.waitLoopTimeout else CloseEvent.waitLoopDone),
        CloseEvent.cancelContext, CloseEvent.removeCalled]) :=
  geminiClose_idempotent_ordered ⟨false, false, true, false, true⟩ false true true false
    rfl rfl rfl

/-- C7: for a message carrying server content, the receive loop calls
`FlushQueues` exactly once when the interrupted flag is set and never
otherwise; `FlushQueues` itself never returns an error, and the flush calls
go to exactly the snapshot participants implementing the flush capability
(absence is not an error), in snapshot order. -/
theorem flushQueues_on_interrupt (resampleOut : List Nat → Option (List Nat))
    (msg : LiveServerMessage) (sc : ServerContent) (reg : List Participant)
    (hsc : msg.serverContent = some sc) :
    ((processMessage resampleOut true msg).count HandlerEffect.flushCall
        = if sc.interrupted = true then 1 else 0) ∧
    (flushQueues reg).2 = none ∧
    ((flushQueues reg).1 = (reg.filter fun p => p.isQueueFlusher).map fun p => p.id) ∧
    (∀ pid, pid ∈ (flushQueues reg).1 ↔
      ∃ p ∈ reg, p.id = pid ∧ p.isQueueFlusher = true) := by
  refine ⟨?_, rfl, rfl, ?_⟩
  · have haudio : ∀ parts : List (Option (List Nat)),
        (parts.filterMap fun part =>
          match part with
          | none => none
          | some audioData => (resampleOut audioData).map HandlerEffect.broadcastAudio).count
            HandlerEffect.flushCall = 0 := by
      intro parts
      rw [List.count_eq_zero]
      intro hmem
      obtain ⟨part, -, hpart⟩ := List.mem_filterMap.mp hmem
      rcases part with _ | audioData
      · exact Option.noConfusion hpart
      · rcases h : resampleOut audioData with _ | out <;> simp [h] at hpart
    simp only [processMessage, hsc]
    rcases sc.modelTurnParts with _ | parts <;>
      by_cases hint : sc.interrupted = true <;>
      simp [hint, List.count_append, haudio, List.count_cons, List.count_nil]
  · intro pid
    simp only [flushQueues, List.mem_map, List.mem_filter]
    constructor
    · rintro ⟨p, ⟨hp, hq⟩, rfl⟩
      exact ⟨p, hp, rfl, hq⟩
    · rintro ⟨p, hp, rfl, hq⟩
      exact ⟨p, ⟨hp, hq⟩, rfl⟩

/-- Witness for C7: an interrupted message and a two-participant snapshot of
which only one implements the flush capability. -/
theorem flushQueues_on_interrupt_witness :
    ((processMessage (fun a => some a) true
        { serverContent := some { modelTurnParts := none, inputTranscription := none, outputTranscription := none, turnComplete := false, interrupted := true } }).count
        HandlerEffect.flushCall
      = if ({ modelTurnParts := none, inputTranscription := none, outputTranscription := none, turnComplete := false, interrupted := true } : ServerContent).interrupted = true then 1 else 0) ∧
    (flushQueues [{ id := "f", writer := none, isQueueFlusher := true }, { id := "g", writer := none, isQueueFlusher := false }]).2 = none ∧
    ((flushQueues [{ id := "f", writer := none, isQueueFlusher := true }, { id := "g", writer := none, isQueueFlusher := false }]).1
      = (([{ id := "f", writer := none, isQueueFlusher := true }, { id := "g", writer := none, isQueueFlusher := false }] : List Participant).filter fun p => p.isQueueFlusher).map fun p => p.id) ∧
    (∀ pid, pid ∈ (flushQueues [{ id := "f", writer := none, isQueueFlusher := true }, { id := "g", writer := none, isQueueFlusher := false }]).1 ↔
      ∃ p ∈ ([{ id := "f", writer := none, isQueueFlusher := true }, { id := "g", writer := none, isQueueFlusher := false }] : List Participant), p.id = pid ∧ p.isQueueFlusher = true) :=
  flushQueues_on_interrupt (fun a => some a) _ _ _ rfl

theorem ulaw_mag_roundtrip (mag : Nat) (hm : mag ≤ 32768) :
    ulawDecodeMag (ulawEncodeMag mag) ≤ mag + 644 ∧
    mag ≤ ulawDecodeMag (ulawEncodeMag mag) + 644 := by
  simp only [ulawEncodeMag, ulawDecodeMag, ulawBias, ulawClip]
  set m := min mag 32635 + 132 with hmdef
  have hlo : 132 ≤ m := by omega
  have hhi : m ≤ 32767 := by omega
  rcases le_or_lt m 255 with c0 | c0
  · have hseg : ulawSegment m = 0 := by
      unfold ulawSegment; rw [if_pos c0]
    rw [hseg]
    norm_num
    omega
  rcases le_or_lt m 511 with c1 | c1
  · have hseg : ulawSegment m = 1 := by
      unfold ulawSegment; rw [if_neg (by omega), if_pos c1]
    rw [hseg]
    norm_num
    omega
  rcases le_or_lt m 1023 with c2 | c2
  · have hseg : ulawSegment m = 2 := by
      unfold ulawSegment; rw [if_neg (by omega), if_neg (by omega), if_pos c2]
    rw [hseg]
    norm_num
    have hv : (32 + m / 32 % 16) / 16 = 2 := by omega
    rw [hv]
    norm_num
    omega
  rcases le_or_lt m 2047 with c3 | c3
  · have hseg : ulawSegment m = 3 := by
      unfold ulawSegment
      rw [if_neg (by omega), if_neg (by omega), if_neg (by omega), if_pos c3]
    rw [hseg]
    norm_num
    have hv : (48 + m / 64 % 16) / 16 = 3 := by omega
    rw [hv]
    norm_num
    omega
  rcases le_or_lt m 4095 with c4 | c4
  · have hseg : ulawSegment m = 4 := by
      unfold ulawSegment
      rw [if_neg (by omega), if_neg (by omega), if_neg (by omega), if_neg (by omega),
        if_pos c4]
    rw [hseg]
    norm_num
    have hv : (64 + m / 128 % 16) / 16 = 4 := by omega
    rw [hv]
    norm_num
    omega
  rcases le_or_lt m 8191 with c5 | c5
  · have hseg : ulawSegment m = 5 := by
      unfold ulawSegment
      rw [if_neg (by omega), if_neg (by omega), if_neg (by omega), if_neg (by omega),
        if_neg (by omega), if_pos c5]
    rw [hseg]
    norm_num
    have hv : (80 + m / 256 % 16) / 16 = 5 := by omega
    rw [hv]
    norm_num
    omega
  rcases le_or_lt m 16383 with c6 | c6
  · have hseg : ulawSegment m = 6 := by
      unfold ulawSegment
      rw [if_neg (by omega), if_neg (by omega), if_neg (by omega), if_neg (by omega),
        if_neg (by omega), if_neg (by omega), if_pos c6]
    rw [hseg]
    norm_num
    have hv : (96 + m / 512 % 16) / 16 = 6 := by omega
    rw [hv]
    norm_num
    omega
  · have hseg : ulawSegment m = 7 := by
      unfold ulawSegment
      rw [if_neg (by omega), if_neg (by omega), if_neg (by omega), if_neg (by omega),
        if_neg (by omega), if_neg (by omega), if_neg (by omega)]
    rw [hseg]
    norm_num
    have hv : (112 + m / 1024 % 16) / 16 = 7 := by omega
    rw [hv]
    norm_num
    omega

theorem ulawEncodeMag_le (mag : Nat) : ulawEncodeMag mag ≤ 127 := by
  have hseg : ulawSegment (min mag 32635 + 132) ≤ 7 := by
    unfold ulawSegment
    split_ifs <;> norm_num
  have hman : (min mag 32635 + 132) / 2 ^ (ulawSegment (min mag 32635 + 132) + 3) % 16 < 16 :=
    Nat.mod_lt _ (by norm_num)
  simp only [ulawEncodeMag, ulawClip, ulawBias]
  omega

theorem ulaw_roundtrip_core (x : Int) (h1 : -32768 ≤ x) (h2 : x ≤ 32767) :
    (decodeUlawSample (encodeUlawSample x) - x).natAbs ≤ 644 := by
  rcases lt_or_le x 0 with hx | hx
  · have hm : (-x).toNat ≤ 32768 := by omega
    obtain ⟨hA, hB⟩ := ulaw_mag_roundtrip (-x).toNat hm
    have hp := ulawEncodeMag_le (-x).toNat
    have henc : encodeUlawSample x = 255 - (128 + ulawEncodeMag (-x).toNat) := by
      simp [encodeUlawSample, hx]
    have hdec : decodeUlawSample (encodeUlawSample x)
        = -(ulawDecodeMag (ulawEncodeMag (-x).toNat) : Int) := by
      rw [henc]
      simp only [decodeUlawSample]
      have hb : (255 - (128 + ulawEncodeMag (-x).toNat)) % 256
          = 255 - (128 + ulawEncodeMag (-x).toNat) := Nat.mod_eq_of_lt (by omega)
      rw [hb]
      have hu : 255 - (255 - (128 + ulawEncodeMag (-x).toNat))
          = 128 + ulawEncodeMag (-x).toNat := by omega
      rw [hu, if_pos (by omega)]
      have hv : 128 + ulawEncodeMag (-x).toNat - 128 = ulawEncodeMag (-x).toNat := by omega
      rw [hv]
    rw [hdec]
    omega
  · have hm : x.toNat ≤ 32768 := by omega
    obtain ⟨hA, hB⟩ := ulaw_mag_roundtrip x.toNat hm
    have hp := ulawEncodeMag_le x.toNat
    have henc : encodeUlawSample x = 255 - ulawEncodeMag x.toNat := by
      simp [encodeUlawSample, not_lt.mpr hx]
    have hdec : decodeUlawSample (encodeUlawSample x)
        = (ulawDecodeMag (ulawEncodeMag x.toNat) : Int) := by
      rw [henc]
      simp only [decodeUlawSample]
      have hb : (255 - ulawEncodeMag x.toNat) % 256
          = 255 - ulawEncodeMag x.toNat := Nat.mod_eq_of_lt (by omega)
      rw [hb]
      have hu : 255 - (255 - ulawEncodeMag x.toNat) = ulawEncodeMag x.toNat := by omega
      rw [hu, if_neg (by omega)]
    rw [hdec]
    omega

theorem ulawDecodeMag_le (v : Nat) (hv : v ≤ 127) : ulawDecodeMag v ≤ 32124 := by
  unfold ulawDecodeMag ulawBias
  have h2 : v / 16 ≤ 7 := by omega
  have h3 : 2 ^ (v / 16) ≤ 2 ^ 7 := Nat.pow_le_pow_right (by norm_num) h2
  have h4 : (8 * (v % 16) + 132) * 2 ^ (v / 16) ≤ 252 * 128 := by
    have h1 : 8 * (v % 16) + 132 ≤ 252 := by omega
    calc (8 * (v % 16) + 132) * 2 ^ (v / 16) ≤ 252 * 2 ^ 7 := Nat.mul_le_mul h1 h3
    _ = 252 * 128 := by norm_num
  omega

theorem decodeUlawSample_range (b : Nat) :
    -32768 ≤ decodeUlawSample b ∧ decodeUlawSample b ≤ 32767 := by
  simp only [decodeUlawSample]
  have hub : 255 - b % 256 ≤ 255 := by omega
  by_cases h : 128 ≤ 255 - b % 256
  · rw [if_pos h]
    have := ulawDecodeMag_le (255 - b % 256 - 128) (by omega)
    constructor <;> omega
  · rw [if_neg h]
    have := ulawDecodeMag_le (255 - b % 256) (by omega)
    constructor <;> omega

theorem bytesToSamples_samplesToBytes (xs : List Int)
    (hx : ∀ x ∈ xs, -32768 ≤ x ∧ x ≤ 32767) :
    bytesToSamples (samplesToBytes xs) = xs := by
  induction xs with
  | nil => rfl
  | cons x rest ih =>
    obtain ⟨h1, h2⟩ := hx x (List.mem_cons_self x rest)
    have hrest := ih fun y hy => hx y (List.mem_cons_of_mem x hy)
    simp only [samplesToBytes, bytesToSamples, hrest]
    have hmod : (0 : Int) ≤ x % 65536 := Int.emod_nonneg x (by norm_num)
    have hmod2 : x % 65536 < 65536 := Int.emod_lt_of_pos x (by norm_num)
    have htv : ((x % 65536).toNat : Int) = x % 65536 := Int.toNat_of_nonneg hmod
    congr 1
    split_ifs with hcond <;> omega

theorem pcmu_pipeline (xs : List Int)
    (hx : ∀ x ∈ xs, -32768 ≤ x ∧ x ≤ 32767) :
    bytesToSamples (decodeG711 (encodeG711 (samplesToBytes xs) "PCMU") "PCMU")
      = xs.map fun x => decodeUlawSample (encodeUlawSample x) := by
  have h1 : encodeG711 (samplesToBytes xs) "PCMU" = xs.map encodeUlawSample := by
    unfold encodeG711
    rw [if_pos rfl, bytesToSamples_samplesToBytes xs hx]
  have h2 : decodeG711 (xs.map encodeUlawSample) "PCMU"
      = samplesToBytes ((xs.map encodeUlawSample).map decodeUlawSample) := by
    unfold decodeG711
    rw [if_pos rfl]
  rw [h1, h2, List.map_map, bytesToSamples_samplesToBytes]
  · simp [Function.comp]
  · intro y hy
    obtain ⟨x, -, rfl⟩ := List.mem_map.mp hy
    exact decodeUlawSample_range _

/-- C9 (spec-modelled μ-law): `decode(encode(x, "PCMU"), "PCMU")` yields a
buffer with the same sample count in which every sample differs from the
corresponding input sample by at most the companding quantization bound
(`ulawQuantBound = 644`: half the top-segment step plus the clipping loss);
the round-trip is approximate, not bit-exact. -/
theorem pcmu_roundtrip_bound (xs : List Int)
    (hx : ∀ x ∈ xs, -32768 ≤ x ∧ x ≤ 32767) :
    (bytesToSamples (decodeG711 (encodeG711 (samplesToBytes xs) "PCMU") "PCMU")).length
        = xs.length ∧
    ∀ i, i < xs.length →
      ((bytesToSamples (decodeG711 (encodeG711 (samplesToBytes xs) "PCMU") "PCMU")).getD i 0
          - xs.getD i 0).natAbs ≤ ulawQuantBound := by
  rw [pcmu_pipeline xs hx]
  refine ⟨by simp, ?_⟩
  intro i hi
  have hgot : (xs.map fun x => decodeUlawSample (encodeUlawSample x)).getD i 0
      = decodeUlawSample (encodeUlawSample (xs.getD i 0)) := by
    rw [List.getD_eq_getElem _ _ (by simpa using hi), List.getElem_map,
      List.getD_eq_getElem _ _ hi]
  rw [hgot]
  have hmem : xs.getD i 0 ∈ xs := by
    rw [List.getD_eq_getElem _ _ hi]
    exact List.getElem_mem hi
  obtain ⟨hl, hr⟩ := hx _ hmem
  simpa [ulawQuantBound] using ulaw_roundtrip_core _ hl hr

/-- Witness for C9: a buffer of five representative samples, including both
extremes. -/
theorem pcmu_roundtrip_bound_witness :
    (bytesToSamples (decodeG711 (encodeG711
        (samplesToBytes [0, 1000, -1000, 32767, -32768]) "PCMU") "PCMU")).length
      = ([0, 1000, -1000, 32767, -32768] : List Int).length ∧
    ∀ i, i < ([0, 1000, -1000, 32767, -32768] : List Int).length →
      ((bytesToSamples (decodeG711 (encodeG711
          (samplesToBytes [0, 1000, -1000, 32767, -32768]) "PCMU") "PCMU")).getD i 0
        - ([0, 1000, -1000, 32767, -32768] : List Int).getD i 0).natAbs ≤ ulawQuantBound :=
  pcmu_roundtrip_bound [0, 1000, -1000, 32767, -32768] (by decide)

/-- C8: `decode`/`encode` with a codec outside {PCMU, PCMA} return an empty
buffer, not an error; frame extraction is a hard parse error exactly on
packets too short for the header, and a well-formed packet with zero-length
payload succeeds, still yielding payload type, sequence number and
timestamp. -/
theorem transcoder_error_contract (payload pcm : List Nat) (codec : String)
    (hcodec : codec ≠ "PCMU" ∧ codec ≠ "PCMA") (packet : List Nat) :
    decodeG711 payload codec = [] ∧
    encodeG711 pcm codec = [] ∧
    (packet.length < 7 →
      extractRTPPayload packet = Except.error "failed to unmarshal RTP packet") ∧
    (7 ≤ packet.length → extractRTPPayload packet = Except.ok
      { payloadType := packet.getD 0 0
        sequenceNumber := packet.getD 1 0 * 256 + packet.getD 2 0
        timestamp := ((packet.getD 3 0 * 256 + packet.getD 4 0) * 256
            + packet.getD 5 0) * 256 + packet.getD 6 0
        payload := packet.drop 7 }) ∧
    (packet.length = 7 → ∃ fr, extractRTPPayload packet = Except.ok fr ∧
      fr.payload = []) := by
  have h4 : 7 ≤ packet.length → extractRTPPayload packet = Except.ok
      { payloadType := packet.getD 0 0
        sequenceNumber := packet.getD 1 0 * 256 + packet.getD 2 0
        timestamp := ((packet.getD 3 0 * 256 + packet.getD 4 0) * 256
            + packet.getD 5 0) * 256 + packet.getD 6 0
        payload := packet.drop 7 } := by
    intro h
    unfold extractRTPPayload
    rw [if_neg (by omega)]
  refine ⟨?_, ?_, ?_, h4, ?_⟩
  · unfold decodeG711
    rw [if_neg hcodec.1, if_neg hcodec.2]
  · unfold encodeG711
    rw [if_neg hcodec.1, if_neg hcodec.2]
  · intro h
    unfold extractRTPPayload
    rw [if_pos h]
  · intro h
    refine ⟨_, h4 (by omega), ?_⟩
    exact List.drop_eq_nil_of_le (by omega)

/-- Witness for C8: codec "opus", a 2-byte malformed packet and a 7-byte
header-only packet. -/
theorem transcoder_error_contract_witness :
    decodeG711 [1, 2, 3] "opus" = [] ∧
    encodeG711 [4, 5] "opus" = [] ∧
    (([9, 9] : List Nat).length < 7 →
      extractRTPPayload [9, 9] = Except.error "failed to unmarshal RTP packet") ∧
    (7 ≤ ([9, 9] : List Nat).length → extractRTPPayload [9, 9] = Except.ok
      { payloadType := ([9, 9] : List Nat).getD 0 0
        sequenceNumber := ([9, 9] : List Nat).getD 1 0 * 256 + ([9, 9] : List Nat).getD 2 0
        timestamp := ((([9, 9] : List Nat).getD 3 0 * 256 + ([9, 9] : List Nat).getD 4 0) * 256
            + ([9, 9] : List Nat).getD 5 0) * 256 + ([9, 9] : List Nat).getD 6 0
        payload := ([9, 9] : List Nat).drop 7 }) ∧
    (([9, 9] : List Nat).length = 7 → ∃ fr, extractRTPPayload [9, 9] = Except.ok fr ∧
      fr.payload = []) :=
  transcoder_error_contract [1, 2, 3] [4, 5] "opus" (by decide) [9, 9]

end SipProxy
